import Mathlib

/-!
# Verification of the stock-correlation pipeline (`app.py`)

This file embeds the data-preparation pipeline of the stock-correlation
dashboard: cleaning a price table, transforming it to returns, and computing
(whole-range or rolling-window) Pearson correlation matrices.

Modelling conventions:
* A pandas `DataFrame` of prices/returns is a `DF α`: a date index, a column
  (ticker) index, and a row-major grid of optional cells (`none` models `NaN`).
* Numeric cells are modelled exactly (`ℚ` for the computable pipeline, `ℝ`
  where `np.log` is involved); floating-point rounding is idealised away.
* A Pearson correlation cell is recorded as the pair
  `(covariance, variance product)` over the pairwise-complete observations;
  its displayed value is `cov / √(varProd)` (`pairVal`), and the cell is
  `none` exactly when the variance product vanishes — which is when pandas
  produces `NaN`.  The `1/(n-1)` normalisation factors of pandas cancel in
  this ratio, so they are omitted.
-/

set_option linter.unusedVariables false
set_option linter.unusedSectionVars false

namespace StockCorr

variable {α : Type} [LinearOrderedField α] [DecidableEq α]

/-- A pandas `DataFrame`: rows indexed by dates, columns by ticker symbols,
cells optional numbers (`none` is `NaN`). -/
structure DF (α : Type) where
  dates : List Nat
  cols  : List String
  rows  : List (List (Option α))
deriving DecidableEq

/-- `pd.DataFrame()` (line 93). -/
def DF.emptyDF : DF α := ⟨[], [], []⟩

/-- Shape well-formedness: one date per row, rectangular rows. -/
def DF.WF (df : DF α) : Prop :=
  df.dates.length = df.rows.length ∧ ∀ r ∈ df.rows, r.length = df.cols.length

/-- Every cell present (a fully dense frame). -/
def DF.Dense (df : DF α) : Prop :=
  ∀ r ∈ df.rows, ∀ c ∈ r, c.isSome

/-- The cell in row `t`, column `j` (out-of-range reads give `none`). -/
def DF.cell (df : DF α) (t j : Nat) : Option α :=
  (df.rows.getD t []).getD j none

/-- Column `j` as the list of its cells, top to bottom. -/
def DF.col (df : DF α) (j : Nat) : List (Option α) :=
  df.rows.map (fun r => r.getD j none)

/-! ## Missing-data cleaner (line 127) -/

/-- `df.dropna()`: remove every row containing at least one missing cell. -/
def dropnaAny (df : DF α) : DF α :=
  let keep := (df.dates.zip df.rows).filter (fun p => p.2.all Option.isSome)
  ⟨keep.map Prod.fst, df.cols, keep.map Prod.snd⟩

/-- Row-by-row engine of column-wise forward fill: `last` holds the most
recent observation of each column; a missing cell is replaced by it. -/
def ffillRows : List (Option α) → List (List (Option α)) → List (List (Option α))
  | _, [] => []
  | last, r :: rs =>
    let r2 := List.zipWith (fun l c => match c with | some v => some v | none => l) last r
    r2 :: ffillRows r2 rs

/-- `df.ffill()`: propagate each column's last known value forward. -/
def ffillDF (df : DF α) : DF α :=
  ⟨df.dates, df.cols, ffillRows (df.cols.map (fun _ => none)) df.rows⟩

/-- The two missing-data policies offered in the sidebar (line 70). -/
inductive MMode
  | ffillDrop
  | dropAny
deriving DecidableEq

/-- Line 127: `prices_df.ffill().dropna()` under the forward-fill policy,
`prices_df.dropna()` otherwise. -/
def cleanDF (df : DF α) : MMode → DF α
  | .ffillDrop => dropnaAny (ffillDF df)
  | .dropAny => dropnaAny df

/-! ## Returns transformer (lines 130-136) -/

/-- `dropna(how="all")`: remove rows whose cells are all missing. -/
def dropnaAllRows (df : DF α) : DF α :=
  let keep := (df.dates.zip df.rows).filter (fun p => p.2.any Option.isSome)
  ⟨keep.map Prod.fst, df.cols, keep.map Prod.snd⟩

/-- Indices of the columns kept by `dropna(axis=1, how="all")`: those with at
least one present cell. -/
def keepIdx (df : DF α) : List Nat :=
  (List.range df.cols.length).filter (fun j => df.rows.any (fun r => (r.getD j none).isSome))

/-- `dropna(axis=1, how="all")` (line 136): drop entirely-missing columns. -/
def dropnaAllCols (df : DF α) : DF α :=
  let js := keepIdx df
  ⟨df.dates, js.map (fun j => df.cols.getD j ""),
   df.rows.map (fun r => js.map (fun j => r.getD j none))⟩

/-- One cell of `pct_change`: `cur/prev - 1`.  (The pandas pad-filling of
missing cells never fires in this pipeline: `pct_change` is only applied to
the dense frame produced by the cleaner.) -/
def pctCell (prev cur : Option α) : Option α :=
  match prev, cur with
  | some a, some b => some (b / a - 1)
  | _, _ => none

/-- `df.pct_change()` (line 131): row 0 becomes all-`NaN`, row `t` is computed
cellwise from rows `t-1` and `t`. -/
def pctChangeDF (df : DF α) : DF α :=
  ⟨df.dates, df.cols,
   match df.rows with
   | [] => []
   | r0 :: _ => (r0.map (fun _ => none)) :: List.zipWith (List.zipWith pctCell) df.rows df.rows.tail⟩

/-- One cell of `.diff()`: `cur - prev`. -/
def diffCell (prev cur : Option α) : Option α :=
  match prev, cur with
  | some a, some b => some (b - a)
  | _, _ => none

/-- `df.diff()` (line 133): row 0 becomes all-`NaN`, row `t` is the cellwise
difference of rows `t` and `t-1`. -/
def diffDF (df : DF α) : DF α :=
  ⟨df.dates, df.cols,
   match df.rows with
   | [] => []
   | r0 :: _ => (r0.map (fun _ => none)) :: List.zipWith (List.zipWith diffCell) df.rows df.rows.tail⟩

/-- Elementwise map over present cells (`np.log(df)` is `mapCellsDF lg` with
`lg` the logarithm; `NaN` propagates). -/
def mapCellsDF (f : α → α) (df : DF α) : DF α :=
  ⟨df.dates, df.cols, df.rows.map (fun r => r.map (Option.map f))⟩

/-- The three returns modes of the sidebar (line 68): percent change, log
returns, raw price levels. -/
inductive RMode
  | pct
  | logr
  | levels
deriving DecidableEq

/-- Lines 130-135: the branch on `mode`.  `lg` stands for `np.log`; it is a
parameter so that the pipeline can also be run over `ℚ` (where the two modes
that do not mention it are evaluated). -/
def transformDF (lg : α → α) (df : DF α) : RMode → DF α
  | .pct => dropnaAllRows (pctChangeDF df)
  | .logr => dropnaAllRows (diffDF (mapCellsDF lg df))
  | .levels => df

/-! ## Correlation computer (`DataFrame.corr`) -/

/-- Mean of a list (empty list: `0/0 = 0`, matching the junk-free uses below). -/
def mean (xs : List α) : α := xs.sum / (xs.length : α)

/-- Deviations from the mean. -/
def dem (xs : List α) : List α := xs.map (fun x => x - mean xs)

/-- Sum of pairwise products. -/
def dot (xs ys : List α) : α := (List.zipWith (· * ·) xs ys).sum

/-- Unnormalised covariance `Σ (x-x̄)(y-ȳ)`; pandas' `1/(n-1)` cancels in the
correlation ratio. -/
def cov (xs ys : List α) : α := dot (dem xs) (dem ys)

/-- Unnormalised variance `Σ (x-x̄)²`. -/
def var (xs : List α) : α := cov xs xs

/-- Pairwise-complete observations of two columns: the rows where both cells
are present (pandas `nancorr` masks exactly these rows). -/
def pairRows (c d : List (Option α)) : List (α × α) :=
  (c.zip d).filterMap (fun p =>
    match p.1, p.2 with
    | some a, some b => some (a, b)
    | _, _ => none)

/-- One correlation cell, recorded as `(cov, var·var)` over the
pairwise-complete rows; `none` models the `NaN` pandas produces when the
variance product is zero (constant column or fewer than two observations). -/
def corrPair (c d : List (Option α)) : Option (α × α) :=
  if var ((pairRows c d).map Prod.fst) * var ((pairRows c d).map Prod.snd) = 0
  then none
  else some (cov ((pairRows c d).map Prod.fst) ((pairRows c d).map Prod.snd),
             var ((pairRows c d).map Prod.fst) * var ((pairRows c d).map Prod.snd))

/-- The correlation matrix: both axes carry the frame's ticker list. -/
structure CorrMat (α : Type) where
  rowLabels : List String
  colLabels : List String
  entries : List (List (Option (α × α)))
deriving DecidableEq

/-- `df.corr()` (lines 139 and 151). -/
def corrDF (df : DF α) : CorrMat α :=
  ⟨df.cols, df.cols,
   (List.range df.cols.length).map (fun i =>
     (List.range df.cols.length).map (fun j => corrPair (df.col i) (df.col j)))⟩

/-- Entry accessor (out-of-range reads give `none`). -/
def CorrMat.entry (M : CorrMat α) (i j : Nat) : Option (α × α) :=
  (M.entries.getD i []).getD j none

/-- The displayed value of a correlation cell: `cov / √(varProd)`. -/
noncomputable def pairVal (p : ℚ × ℚ) : ℝ :=
  (p.1 : ℝ) / Real.sqrt (p.2 : ℝ)

/-! ## `prepare_matrix_data` (lines 124-139) -/

/-- Lines 124-139, verbatim structure: guard on emptiness / fewer than two
columns, clean, guard on emptiness, transform to returns, drop all-`NaN`
columns, guard on fewer than two surviving columns, return the returns frame
with its correlation matrix.  (`prices_df.empty` is `rows = [] ∨ cols = []`;
the `cols = []` half is subsumed by `cols.length < 2`.) -/
def prepare_matrix_data (lg : α → α) (prices : DF α) (mode : RMode) (missing : MMode) :
    Option (DF α × CorrMat α) :=
  if prices.rows.isEmpty ∨ prices.cols.length < 2 then none
  else
    let df := cleanDF prices missing
    if df.rows.isEmpty then none
    else
      let ret := dropnaAllCols (transformDF lg df mode)
      if ret.cols.length < 2 then none
      else some (ret, corrDF ret)

/-! ## `rolling_corr_slice` (lines 141-151) -/

/-- `df.iloc[s:e]` on rows (and the date index): rows `s .. e-1`. -/
def ilocTo (df : DF α) (s e : Nat) : DF α :=
  ⟨(df.dates.take e).drop s, df.cols, (df.rows.take e).drop s⟩

/-- Lines 141-151, verbatim structure: `None`/empty guard, bounds guard on
`end_idx`, window `iloc[max(0, end_idx-window+1) : end_idx+1]`, guard on
fewer than two rows, else the window's correlation matrix with its first and
last dates. -/
def rolling_corr_slice : Option (DF α) → Int → Int → Option (CorrMat α × Nat × Nat)
  | none, _, _ => none
  | some r, window, end_idx =>
    if r.rows.isEmpty ∨ r.cols.isEmpty then none
    else if end_idx < 0 ∨ (r.rows.length : Int) ≤ end_idx then none
    else
      let start_idx : Int := max 0 (end_idx - window + 1)
      let w := ilocTo r start_idx.toNat (end_idx.toNat + 1)
      if w.rows.length < 2 then none
      else some (corrDF w, w.dates.headD 0, w.dates.getLastD 0)

/-- Line 182: the rolling window is computed only under `window_size < n`;
`window_size >= n` shows the too-large warning instead. -/
def rollingFeasible (window n : Nat) : Bool := window < n

/-! ## `fetch_prices` (lines 90-111) -/

/-- Lines 90-111.  The `yfinance` download and the pandas column
normalisation/sorting applied to its result (lines 94-111) are
external-interface glue, modelled as the parameters `download` and
`normalize`; the guard of lines 92-93 is the logic under verification:
an empty ticker list short-circuits to `pd.DataFrame()` before any
download happens. -/
def fetch_prices {β : Type} (download : List String → Int → Int → β)
    (normalize : β → List String → String → DF α)
    (tickers : List String) (start stop : Int) (field : String) : DF α :=
  if tickers.length = 0 then DF.emptyDF
  else normalize (download tickers start (stop + 1)) tickers field

instance {γ : Type} (df : DF γ) : Decidable df.WF :=
  inferInstanceAs (Decidable (_ ∧ _))

instance {γ : Type} (df : DF γ) : Decidable df.Dense :=
  inferInstanceAs (Decidable (∀ r ∈ df.rows, ∀ c ∈ r, c.isSome = true))

/-! ## List helper lemmas -/

theorem getD_zipWith' {γ δ ε : Type} (f : γ → δ → ε) (a : List γ) (b : List δ)
    (j : Nat) (da : γ) (db : δ) (dc : ε) (ha : j < a.length) (hb : j < b.length) :
    (List.zipWith f a b).getD j dc = f (a.getD j da) (b.getD j db) := by
  induction a generalizing b j with
  | nil => simp at ha
  | cons x xs ih =>
    cases b with
    | nil => simp at hb
    | cons y ys =>
      cases j with
      | zero => simp [List.zipWith_cons_cons]
      | succ n =>
        simp only [List.zipWith_cons_cons, List.getD_cons_succ]
        exact ih ys n (by simpa using ha) (by simpa using hb)

theorem list_sum_eq_sum_getD (l : List α) :
    l.sum = ∑ i ∈ Finset.range l.length, l.getD i 0 := by
  induction l with
  | nil => simp
  | cons x xs ih =>
    rw [List.sum_cons, List.length_cons, Finset.sum_range_succ']
    simp only [List.getD_cons_succ, List.getD_cons_zero]
    rw [← ih]; ring

theorem getD_map_range {γ : Type} (f : Nat → γ) (n i : Nat) (d : γ) :
    ((List.range n).map f).getD i d = if i < n then f i else d := by
  split
  case isTrue h =>
    rw [List.getD_eq_getElem?_getD, List.getElem?_eq_getElem (by simpa using h)]
    simp
  case isFalse h =>
    rw [List.getD_eq_getElem?_getD, List.getElem?_eq_none (by simpa using not_lt.mp h)]
    rfl

/-! ## Covariance / variance facts -/

theorem dot_eq_sum (a b : List α) (h : a.length = b.length) :
    dot a b = ∑ i ∈ Finset.range a.length, a.getD i 0 * b.getD i 0 := by
  unfold dot
  rw [list_sum_eq_sum_getD]
  have hl : (List.zipWith (· * ·) a b).length = a.length := by
    rw [List.length_zipWith, h, min_self]
  rw [hl]
  refine Finset.sum_congr rfl (fun i hi => ?_)
  rw [Finset.mem_range] at hi
  exact getD_zipWith' _ a b i 0 0 0 hi (h ▸ hi)

theorem dot_comm (a b : List α) : dot a b = dot b a := by
  unfold dot
  congr 1
  induction a generalizing b with
  | nil => cases b <;> simp
  | cons x xs ih =>
    cases b with
    | nil => simp
    | cons y ys => simp [List.zipWith_cons_cons, mul_comm, ih]

theorem dot_self_nonneg (a : List α) : 0 ≤ dot a a := by
  rw [dot_eq_sum a a rfl]
  exact Finset.sum_nonneg (fun i _ => mul_self_nonneg _)

/-- Cauchy-Schwarz for `dot` on equal-length lists. -/
theorem dot_sq_le (a b : List α) (h : a.length = b.length) :
    dot a b ^ 2 ≤ dot a a * dot b b := by
  rw [dot_eq_sum a b h, dot_eq_sum a a rfl, dot_eq_sum b b rfl, ← h]
  have hcs := Finset.sum_mul_sq_le_sq_mul_sq (Finset.range a.length)
    (fun i => a.getD i 0) (fun i => b.getD i 0)
  simpa [pow_two] using hcs

theorem cov_comm (xs ys : List α) : cov xs ys = cov ys xs := dot_comm _ _

theorem var_nonneg (xs : List α) : 0 ≤ var xs := dot_self_nonneg _

theorem cov_sq_le (xs ys : List α) (h : xs.length = ys.length) :
    cov xs ys ^ 2 ≤ var xs * var ys := by
  unfold var cov
  exact dot_sq_le _ _ (by simp [dem, h])

/-! ## `pairRows` and `corrPair` facts -/

theorem pairRows_cons_cons (x y : Option α) (xs ys : List (Option α)) :
    pairRows (x :: xs) (y :: ys) =
      match x, y with
      | some a, some b => (a, b) :: pairRows xs ys
      | _, _ => pairRows xs ys := by
  cases x <;> cases y <;> simp [pairRows, List.zip_cons_cons, List.filterMap_cons]

theorem pairRows_swap (c d : List (Option α)) :
    pairRows c d = (pairRows d c).map Prod.swap := by
  induction c generalizing d with
  | nil => cases d <;> simp [pairRows]
  | cons x xs ih =>
    cases d with
    | nil => simp [pairRows]
    | cons y ys =>
      rw [pairRows_cons_cons, pairRows_cons_cons]
      cases x <;> cases y <;> simp [ih ys]

theorem pairRows_self (c : List (Option α)) :
    pairRows c c = (c.filterMap id).map (fun a => (a, a)) := by
  induction c with
  | nil => simp [pairRows]
  | cons x xs ih =>
    rw [pairRows_cons_cons]
    cases x <;> simp [List.filterMap_cons, ih]

theorem corrPair_comm (c d : List (Option α)) : corrPair c d = corrPair d c := by
  unfold corrPair
  rw [pairRows_swap c d]
  simp only [List.map_map]
  have h1 : (Prod.fst ∘ Prod.swap : α × α → α) = Prod.snd := rfl
  have h2 : (Prod.snd ∘ Prod.swap : α × α → α) = Prod.fst := rfl
  rw [h1, h2, mul_comm (var (List.map Prod.snd (pairRows d c))) _,
    cov_comm (List.map Prod.snd (pairRows d c)) _]

theorem corrPair_some {c d : List (Option α)} {p : α × α}
    (h : corrPair c d = some p) : 0 < p.2 ∧ p.1 ^ 2 ≤ p.2 := by
  unfold corrPair at h
  split at h
  · exact absurd h (by simp)
  case isFalse h0 =>
    injection h with h
    subst h
    refine ⟨lt_of_le_of_ne (mul_nonneg (var_nonneg _) (var_nonneg _)) (Ne.symm h0), ?_⟩
    exact cov_sq_le _ _ (by simp)

theorem corrPair_self (c : List (Option α)) :
    corrPair c c = if var (c.filterMap id) = 0 then none
      else some (var (c.filterMap id), var (c.filterMap id) * var (c.filterMap id)) := by
  unfold corrPair
  rw [pairRows_self]
  simp only [List.map_map]
  have h1 : ((Prod.fst ∘ fun a => (a, a)) : α → α) = id := rfl
  have h2 : ((Prod.snd ∘ fun a => (a, a)) : α → α) = id := rfl
  rw [h1, h2, List.map_id]
  by_cases h : var (c.filterMap id) = 0
  · simp [h]
  · simp only [mul_eq_zero, h, or_self, if_neg, var]

theorem corrDF_entry (df : DF α) (i j : Nat) :
    (corrDF df).entry i j =
      if i < df.cols.length ∧ j < df.cols.length
      then corrPair (df.col i) (df.col j) else none := by
  unfold corrDF CorrMat.entry
  simp only []
  rw [getD_map_range]
  by_cases hi : i < df.cols.length
  · rw [if_pos hi, getD_map_range]
    by_cases hj : j < df.cols.length
    · rw [if_pos hj, if_pos ⟨hi, hj⟩]
    · rw [if_neg hj, if_neg (fun hh => hj hh.2)]
  · rw [if_neg hi, if_neg (fun hh => hi hh.1)]
    simp

/-! ## Real-valued bounds on correlation cells -/

theorem pairVal_bounds {p : ℚ × ℚ} (hpos : 0 < p.2) (hle : p.1 ^ 2 ≤ p.2) :
    -1 ≤ pairVal p ∧ pairVal p ≤ 1 := by
  have h2 : (0 : ℝ) < (p.2 : ℝ) := by exact_mod_cast hpos
  have hsq : ((p.1 : ℝ)) ^ 2 ≤ (p.2 : ℝ) := by exact_mod_cast hle
  have hs : 0 < Real.sqrt (p.2 : ℝ) := Real.sqrt_pos.mpr h2
  have habs : |(p.1 : ℝ)| ≤ Real.sqrt (p.2 : ℝ) := by
    rw [← Real.sqrt_sq_eq_abs]
    exact Real.sqrt_le_sqrt hsq
  have hval : |pairVal p| ≤ 1 := by
    unfold pairVal
    rw [abs_div, abs_of_pos hs]
    exact div_le_one_of_le₀ habs hs.le
  exact abs_le.mp hval

theorem pairVal_one {v : ℚ} (hv : 0 < v) : pairVal (v, v * v) = 1 := by
  have h0 : (0 : ℝ) < (v : ℝ) := by exact_mod_cast hv
  show ((v : ℚ) : ℝ) / Real.sqrt (((v * v : ℚ) : ℝ)) = 1
  push_cast
  rw [Real.sqrt_mul_self h0.le, div_self h0.ne']

/-! ## Claim C1 -/

/-- The (amended) properties of a produced `CorrelationMatrix`: square, both
axes labelled with the frame's tickers, symmetric, every present entry within
`[-1, 1]`, every present diagonal entry exactly `1`, and a diagonal entry is
missing (`NaN`) precisely when its column is constant (zero variance) over
the observed rows. -/
def CorrProps (df : DF ℚ) : Prop :=
  (corrDF df).rowLabels = df.cols ∧
  (corrDF df).colLabels = df.cols ∧
  (corrDF df).entries.length = df.cols.length ∧
  (∀ row ∈ (corrDF df).entries, row.length = df.cols.length) ∧
  (∀ i j, (corrDF df).entry i j = (corrDF df).entry j i) ∧
  (∀ i j p, (corrDF df).entry i j = some p → -1 ≤ pairVal p ∧ pairVal p ≤ 1) ∧
  (∀ i p, (corrDF df).entry i i = some p → pairVal p = 1) ∧
  (∀ i, i < df.cols.length →
    ((corrDF df).entry i i = none ↔ var ((df.col i).filterMap id) = 0))

/-- C1 (corrected).  For every ReturnTable with at least 2 columns and 2
rows, the correlation matrix is square, indexed by the same ticker set on
both axes, and symmetric; every defined entry lies in `[-1, 1]` and every
defined diagonal entry equals `1.0`.  The claim's stronger statement that
*every* diagonal entry is `1.0` is false: a constant (zero-variance) column
yields `NaN` (`none`) on its diagonal — see the counterexample theorem. -/
theorem corr_matrix_props (df : DF ℚ) (hc : 2 ≤ df.cols.length)
    (hr : 2 ≤ df.rows.length) : CorrProps df := by
  refine ⟨rfl, rfl, by simp [corrDF], ?_, ?_, ?_, ?_, ?_⟩
  · intro row hrow
    simp only [corrDF, List.mem_map] at hrow
    obtain ⟨i, _, rfl⟩ := hrow
    simp
  · intro i j
    rw [corrDF_entry, corrDF_entry]
    by_cases hi : i < df.cols.length <;> by_cases hj : j < df.cols.length <;>
      simp [hi, hj, corrPair_comm]
  · intro i j p h
    rw [corrDF_entry] at h
    split at h
    · obtain ⟨hpos, hle⟩ := corrPair_some h
      exact pairVal_bounds hpos hle
    · exact absurd h (by simp)
  · intro i p h
    rw [corrDF_entry] at h
    split at h
    · rw [corrPair_self] at h
      split at h
      · exact absurd h (by simp)
      case isFalse hv =>
        injection h with h
        subst h
        exact pairVal_one (lt_of_le_of_ne (var_nonneg _) (Ne.symm hv))
    · exact absurd h (by simp)
  · intro i hi
    rw [corrDF_entry, if_pos ⟨hi, hi⟩, corrPair_self]
    split <;> simp_all

/-- A concrete ReturnTable with two tickers and two rows. -/
def wRet : DF ℚ := ⟨[0, 1], ["A", "B"], [[some 0, some 1], [some 1, some 0]]⟩

/-- Witness for C1 at a concrete ReturnTable. -/
theorem corr_matrix_props_witness :
    2 ≤ wRet.cols.length ∧ 2 ≤ wRet.rows.length ∧ CorrProps wRet :=
  ⟨by decide, by decide, corr_matrix_props wRet (by decide) (by decide)⟩

/-- A price table whose first column has constant prices. -/
def cexPrices : DF ℚ :=
  ⟨[0, 1, 2], ["A", "B"], [[some 1, some 1], [some 1, some 2], [some 1, some 6]]⟩

unseal Rat.sub Rat.add Rat.mul Rat.inv in
/-- C1 counterexample to the claim as stated: `prepare_matrix_data` produces,
from a 3-row price table with a constant first column, a ReturnTable with 2
columns and 2 rows whose correlation matrix has `none` (`NaN`) — not `1.0` —
at diagonal position `(0,0)`, and a `NaN` off-diagonal entry as well. -/
theorem corr_diag_nan_counterexample :
    prepare_matrix_data (α := ℚ) id cexPrices .pct .dropAny =
      some (⟨[1, 2], ["A", "B"], [[some 0, some 1], [some 0, some 2]]⟩,
            ⟨["A", "B"], ["A", "B"], [[none, none], [none, some (1/2, 1/4)]]⟩) ∧
    (⟨["A", "B"], ["A", "B"],
      [[none, none], [none, some (1/2, 1/4)]]⟩ : CorrMat ℚ).entry 0 0 = none ∧
    (⟨["A", "B"], ["A", "B"],
      [[none, none], [none, some (1/2, 1/4)]]⟩ : CorrMat ℚ).entry 0 1 = none ∧
    2 ≤ (⟨[1, 2], ["A", "B"],
      [[some 0, some 1], [some 0, some 2]]⟩ : DF ℚ).rows.length := by
  refine ⟨?_, by decide, by decide, by decide⟩
  decide

/-! ## Rolling-window lemmas -/

theorem headD_drop {γ : Type} (l : List γ) (s : Nat) (d : γ) :
    (l.drop s).headD d = l.getD s d := by
  induction s generalizing l with
  | zero => cases l <;> rfl
  | succ n ih =>
    cases l with
    | nil => rfl
    | cons x xs => simpa using ih xs

theorem getD_take {γ : Type} (l : List γ) (m s : Nat) (d : γ) (h : s < m) :
    (l.take m).getD s d = l.getD s d := by
  induction m generalizing l s with
  | zero => omega
  | succ n ih =>
    cases l with
    | nil => simp
    | cons x xs =>
      cases s with
      | zero => simp
      | succ k => simpa using ih xs k (by omega)

theorem getD_drop {γ : Type} (l : List γ) (s k : Nat) (d : γ) :
    (l.drop s).getD k d = l.getD (s + k) d := by
  induction s generalizing l with
  | zero => simp
  | succ n ih =>
    cases l with
    | nil => simp
    | cons x xs =>
      rw [List.drop_succ_cons, ih xs, Nat.succ_add, List.getD_cons_succ]

theorem getLastD_eq_getD {γ : Type} (l : List γ) (d : γ) :
    l.getLastD d = l.getD (l.length - 1) d := by
  induction l generalizing d with
  | nil => rfl
  | cons x xs ih =>
    cases xs with
    | nil => rfl
    | cons y ys =>
      rw [List.getLastD_cons, ih x]
      have hlt : ys.length < (y :: ys).length := by simp
      rw [List.getD_eq_getElem _ _ (by simpa using hlt)]
      rw [show (x :: y :: ys).length - 1 = ys.length + 1 by simp,
        List.getD_cons_succ, List.getD_eq_getElem _ _ (by simpa using hlt)]
      simp

/-- The window slice: rows `max 0 (i - W + 1) .. i` of the frame. -/
def windowOf (df : DF α) (W : Int) (i : Nat) : DF α :=
  ilocTo df ((max 0 ((i : Int) - W + 1)).toNat) (i + 1)

/-- Evaluation of `rolling_corr_slice` when the frame is nonempty and
`end_idx` is an in-range row position `i`. -/
theorem rolling_eval (df : DF α) (hwf : df.WF) (hc : df.cols ≠ [])
    (W : Int) (i : Nat) (hi : i < df.rows.length) :
    rolling_corr_slice (some df) W (i : Int) =
      if (windowOf df W i).rows.length < 2
      then none
      else some (corrDF (windowOf df W i),
                 df.dates.getD ((max 0 ((i : Int) - W + 1)).toNat) 0,
                 df.dates.getD i 0) := by
  have hrne : df.rows ≠ [] := by
    intro h
    rw [h] at hi
    simp at hi
  simp only [rolling_corr_slice]
  rw [if_neg (by simp [List.isEmpty_eq_false.mpr hrne, List.isEmpty_eq_false.mpr hc]),
    if_neg (by omega)]
  simp only [Int.toNat_natCast]
  have hwin : ilocTo df (max 0 ((i : Int) - W + 1)).toNat (i + 1) = windowOf df W i := rfl
  rw [hwin]
  set s := (max 0 ((i : Int) - W + 1)).toNat with hs
  set w := windowOf df W i with hw
  by_cases hlen : w.rows.length < 2
  · rw [if_pos hlen, if_pos hlen]
  · rw [if_neg hlen, if_neg hlen]
    have hwrows : w.rows.length = i + 1 - s := by
      rw [hw]
      unfold windowOf ilocTo
      simp only [List.length_drop, List.length_take]
      omega
    have hsi : s ≤ i - 1 := by omega
    have hdl : df.dates.length = df.rows.length := hwf.1
    have hwd : w.dates = (df.dates.take (i + 1)).drop s := rfl
    have hhead : w.dates.headD 0 = df.dates.getD s 0 := by
      rw [hwd, headD_drop, getD_take _ _ _ _ (by omega)]
    have hlast : w.dates.getLastD 0 = df.dates.getD i 0 := by
      rw [hwd, getLastD_eq_getD]
      have hwl : ((df.dates.take (i + 1)).drop s).length = i + 1 - s := by
        simp only [List.length_drop, List.length_take]
        omega
      rw [hwl, getD_drop, show s + (i + 1 - s - 1) = i by omega,
        getD_take _ _ _ _ (by omega)]
    rw [hhead, hlast]

/-- The C2 window property at `(df, W, i)`: the window slice consists of
exactly the rows `max 0 (i - W + 1) .. i`; with fewer than 2 rows in the
slice the result is `none`; otherwise it is the slice's correlation matrix
together with the window's first and last dates. -/
def RollingSliceSpec (df : DF ℚ) (W : Int) (i : Nat) : Prop :=
  (windowOf df W i).rows =
      (df.rows.take (i + 1)).drop ((max 0 ((i : Int) - W + 1)).toNat) ∧
  ((windowOf df W i).rows.length < 2 →
    rolling_corr_slice (some df) W (i : Int) = none) ∧
  (2 ≤ (windowOf df W i).rows.length →
    rolling_corr_slice (some df) W (i : Int) =
      some (corrDF (windowOf df W i),
            df.dates.getD ((max 0 ((i : Int) - W + 1)).toNat) 0,
            df.dates.getD i 0))

/-- C2 (confirmed).  For every ReturnTable, window length `W`, and in-range
end position `i`, `rolling_corr_slice` computes its correlation matrix over
exactly the rows `max 0 (i - W + 1) .. i` inclusive and reports the window's
first and last dates; if the slice has fewer than 2 rows it yields the
no-result signal `none`. -/
theorem rolling_corr_slice_spec (df : DF ℚ) (hwf : df.WF) (hc : df.cols ≠ [])
    (W : Int) (i : Nat) (hi : i < df.rows.length) :
    RollingSliceSpec df W i := by
  refine ⟨rfl, ?_, ?_⟩ <;> intro h <;>
    rw [rolling_eval df hwf hc W i hi]
  · rw [if_pos h]
  · rw [if_neg (by omega)]

/-- A concrete 4-row ReturnTable for rolling-window witnesses. -/
def wRoll : DF ℚ :=
  ⟨[10, 11, 12, 13], ["A", "B"],
   [[some 1, some 2], [some 2, some 1], [some 3, some 5], [some 1, some 4]]⟩

/-- Witness for C2 at a concrete ReturnTable, `W = 3`, `i = 2`. -/
theorem rolling_corr_slice_spec_witness :
    (wRoll.WF ∧ wRoll.cols ≠ [] ∧ 2 < wRoll.rows.length) ∧
      RollingSliceSpec wRoll 3 2 :=
  ⟨⟨by decide, by decide, by decide⟩,
   rolling_corr_slice_spec wRoll (by decide) (by decide) 3 2 (by decide)⟩

/-- C9 (confirmed).  `rolling_corr_slice` returns `none` whenever the
requested end position is negative or not less than the number of rows,
rather than indexing out of range. -/
theorem rolling_corr_slice_oob (r : DF ℚ) (W eidx : Int)
    (h : eidx < 0 ∨ (r.rows.length : Int) ≤ eidx) :
    rolling_corr_slice (some r) W eidx = none := by
  simp only [rolling_corr_slice]
  by_cases h0 : r.rows.isEmpty ∨ r.cols.isEmpty
  · rw [if_pos h0]
  · rw [if_neg h0, if_pos h]

/-- Witness for C9: end position 5 on a 4-row table. -/
theorem rolling_corr_slice_oob_witness :
    ((5 : Int) < 0 ∨ (wRoll.rows.length : Int) ≤ 5) ∧
      rolling_corr_slice (some wRoll) 3 5 = none :=
  ⟨by decide, rolling_corr_slice_oob wRoll 3 5 (by decide)⟩

/-! ## Claim C4: window feasibility -/

/-- The C4 success property at `df`: with `n` rows and `W = n - 1`, the
rolling computation succeeds, and its window consists of every row except
the first. -/
def MaxWindowSpec (df : DF ℚ) : Prop :=
  rolling_corr_slice (some df) ((df.rows.length : Int) - 1)
      (((df.rows.length - 1 : Nat) : Int)) =
    some (corrDF (ilocTo df 1 df.rows.length),
          df.dates.getD 1 0, df.dates.getD (df.rows.length - 1) 0) ∧
  (ilocTo df 1 df.rows.length).rows = df.rows.drop 1

/-- C4 (corrected).  `W ≥ n` fails the feasibility check of the rolling
mode, so no correlation is computed there; and for `n ≥ 3`, `W = n - 1`
succeeds with its maximal window (end position `n - 1`) covering every row
except the first.  The claim's unconditional `W = n - 1` success is false
for `n = 2`: the window then has a single row and `rolling_corr_slice`
yields `none` — see the counterexample theorem. -/
theorem rolling_feasibility (W n : Nat) (df : DF ℚ) (hwf : df.WF)
    (hc : df.cols ≠ []) (h3 : 3 ≤ df.rows.length) :
    (n ≤ W → rollingFeasible W n = false) ∧
    rollingFeasible (df.rows.length - 1) df.rows.length = true ∧
    MaxWindowSpec df := by
  refine ⟨?_, ?_, ?_, ?_⟩
  · intro h
    simp only [rollingFeasible, decide_eq_false_iff_not, not_lt]
    omega
  · simp only [rollingFeasible, decide_eq_true_eq]
    omega
  · have hi : df.rows.length - 1 < df.rows.length := by omega
    have heval := rolling_eval df hwf hc ((df.rows.length : Int) - 1)
      (df.rows.length - 1) hi
    have hwin2 : windowOf df ((df.rows.length : Int) - 1) (df.rows.length - 1) =
        ilocTo df 1 df.rows.length := by
      unfold windowOf
      rw [show (max 0 (((df.rows.length - 1 : Nat) : Int) -
            ((df.rows.length : Int) - 1) + 1)).toNat = 1 by omega,
        show df.rows.length - 1 + 1 = df.rows.length by omega]
    have hmax : (max 0 (((df.rows.length - 1 : Nat) : Int) -
        ((df.rows.length : Int) - 1) + 1)).toNat = 1 := by omega
    rw [hwin2, hmax] at heval
    have hlen : (ilocTo df 1 df.rows.length).rows.length = df.rows.length - 1 := by
      unfold ilocTo
      simp only [List.length_drop, List.length_take]
      omega
    rw [heval, if_neg (by omega)]
  · show (df.rows.take df.rows.length).drop 1 = df.rows.drop 1
    rw [List.take_length]

/-- Witness for C4 at a concrete 4-row ReturnTable (and `W = 7 ≥ n = 4` for
the infeasibility part). -/
theorem rolling_feasibility_witness :
    (wRoll.WF ∧ wRoll.cols ≠ [] ∧ 3 ≤ wRoll.rows.length) ∧
    ((4 ≤ 7 → rollingFeasible 7 4 = false) ∧
      rollingFeasible (wRoll.rows.length - 1) wRoll.rows.length = true ∧
      MaxWindowSpec wRoll) :=
  ⟨⟨by decide, by decide, by decide⟩,
   rolling_feasibility 7 4 wRoll (by decide) (by decide) (by decide)⟩

/-- A dense 2-row, 2-column ReturnTable. -/
def cexSmall : DF ℚ := ⟨[0, 1], ["A", "B"], [[some 1, some 2], [some 2, some 1]]⟩

/-- C4 counterexample to the claim as stated: on a table with `n = 2` rows,
`W = n - 1 = 1` passes the feasibility check, yet the rolling computation at
the maximal end position yields `none` (the 1-row window has fewer than 2
rows) — `W = n - 1` does not succeed unconditionally. -/
theorem rolling_small_counterexample :
    rollingFeasible (cexSmall.rows.length - 1) cexSmall.rows.length = true ∧
    rolling_corr_slice (some cexSmall) ((cexSmall.rows.length : Int) - 1)
      ((cexSmall.rows.length : Int) - 1) = none :=
  ⟨by decide, by decide⟩

/-! ## Claims C3 and C7: invariants of `prepare_matrix_data` -/

theorem dropnaAllCols_rows_length (df : DF α) :
    (dropnaAllCols df).rows.length = df.rows.length := by
  simp [dropnaAllCols]

theorem dropnaAllCols_cols_pos (df : DF α)
    (h : 1 ≤ (dropnaAllCols df).cols.length) : df.rows ≠ [] := by
  intro hrows
  have hk : keepIdx df = [] := by
    simp [keepIdx, hrows]
  simp [dropnaAllCols, hk] at h

/-- C3 (corrected).  Whenever `prepare_matrix_data` returns a
`(ReturnTable, CorrelationMatrix)` pair, the ReturnTable has at least 2
columns and at least 1 row.  The claim's stronger "at least 2 rows" is
false: the function never checks the row count of the ReturnTable, and a
2-row price table in percent-change mode (or a 1-row table in levels mode)
produces a 1-row ReturnTable — see the counterexample theorem. -/
theorem prepare_matrix_data_post (lg : α → α) (prices : DF α) (mode : RMode)
    (missing : MMode) (ret : DF α) (M : CorrMat α)
    (h : prepare_matrix_data lg prices mode missing = some (ret, M)) :
    2 ≤ ret.cols.length ∧ 1 ≤ ret.rows.length := by
  simp only [prepare_matrix_data] at h
  split at h
  · exact absurd h (by simp)
  split at h
  · exact absurd h (by simp)
  split at h
  case isTrue => exact absurd h (by simp)
  case isFalse hcols =>
    injection h with h
    obtain ⟨h1, h2⟩ := Prod.mk.injEq .. ▸ h
    subst h1
    refine ⟨by omega, ?_⟩
    rw [dropnaAllCols_rows_length]
    have hne := dropnaAllCols_cols_pos (transformDF lg (cleanDF prices missing) mode)
      (by omega)
    have := List.length_pos.mpr hne
    omega

/-- The ReturnTable produced from `cexPrices`. -/
def retA : DF ℚ := ⟨[1, 2], ["A", "B"], [[some 0, some 1], [some 0, some 2]]⟩

/-- The correlation matrix produced from `cexPrices` (first column constant). -/
def corrA : CorrMat ℚ :=
  ⟨["A", "B"], ["A", "B"], [[none, none], [none, some (1/2, 1/4)]]⟩

unseal Rat.sub Rat.add Rat.mul Rat.inv in
/-- Witness for C3 at a concrete input on which `prepare_matrix_data`
produces a result. -/
theorem prepare_matrix_data_post_witness :
    prepare_matrix_data (α := ℚ) id cexPrices .pct .dropAny = some (retA, corrA) ∧
      (2 ≤ retA.cols.length ∧ 1 ≤ retA.rows.length) :=
  ⟨by decide, prepare_matrix_data_post id cexPrices .pct .dropAny retA corrA (by decide)⟩

/-- A dense 2-row, 2-column price table. -/
def cexTwoRow : DF ℚ := ⟨[0, 1], ["A", "B"], [[some 1, some 1], [some 2, some 3]]⟩

/-- Its 1-row ReturnTable under percent-change. -/
def retB : DF ℚ := ⟨[1], ["A", "B"], [[some 1, some 2]]⟩

/-- An all-`NaN` 2×2 correlation matrix. -/
def corrNaN : CorrMat ℚ := ⟨["A", "B"], ["A", "B"], [[none, none], [none, none]]⟩

unseal Rat.sub Rat.add Rat.mul Rat.inv in
/-- C3 counterexample to the claim as stated: from a 2-row price table,
percent-change mode produces a pair whose ReturnTable has exactly 1 row,
not at least 2. -/
theorem prepare_two_row_counterexample :
    prepare_matrix_data (α := ℚ) id cexTwoRow .pct .dropAny = some (retB, corrNaN) ∧
    retB.rows.length = 1 :=
  ⟨by decide, by decide⟩

/-- C7 (corrected).  The stages return the explicit no-result signal `none`
rather than raising when there is no data at all, fewer than 2 tickers
(columns), an empty table after cleaning, a `None`/empty input to the
rolling computation.  The claim's "fewer than 2 overlapping observations"
case is false in general: in levels mode a single overlapping observation
still yields a result — see the counterexample theorem. -/
theorem no_result_signals (lg : α → α) (prices : DF α) (mode : RMode)
    (missing : MMode) (r : DF α) (W eidx : Int) :
    (prices.rows = [] ∨ prices.cols.length < 2 →
      prepare_matrix_data lg prices mode missing = none) ∧
    ((cleanDF prices missing).rows = [] →
      prepare_matrix_data lg prices mode missing = none) ∧
    rolling_corr_slice (none : Option (DF α)) W eidx = none ∧
    (r.rows = [] → rolling_corr_slice (some r) W eidx = none) := by
  refine ⟨?_, ?_, rfl, ?_⟩
  · intro h
    simp only [prepare_matrix_data]
    rw [if_pos]
    rcases h with h | h
    · exact Or.inl (by simp [h])
    · exact Or.inr h
  · intro h
    simp only [prepare_matrix_data]
    by_cases h1 : prices.rows.isEmpty = true ∨ prices.cols.length < 2
    · rw [if_pos h1]
    · rw [if_neg h1, if_pos (by simp [h])]
  · intro h
    simp only [rolling_corr_slice]
    rw [if_pos (Or.inl (by simp [h]))]

/-- A price table with one column and no rows. -/
def emptyQ : DF ℚ := ⟨[], ["A"], []⟩

/-- Witness for C7 at concrete no-result inputs. -/
theorem no_result_signals_witness :
    prepare_matrix_data (α := ℚ) id emptyQ .pct .dropAny = none ∧
    rolling_corr_slice (none : Option (DF ℚ)) 5 3 = none ∧
    rolling_corr_slice (some emptyQ) 5 3 = none :=
  ⟨(no_result_signals id emptyQ .pct .dropAny emptyQ 5 3).1 (by decide),
   (no_result_signals id emptyQ .pct .dropAny emptyQ 5 3).2.2.1,
   (no_result_signals id emptyQ .pct .dropAny emptyQ 5 3).2.2.2 (by decide)⟩

/-- A dense table with two tickers but a single observation row. -/
def oneRow : DF ℚ := ⟨[0], ["A", "B"], [[some 1, some 2]]⟩

unseal Rat.sub Rat.add Rat.mul Rat.inv in
/-- C7 counterexample to the claim as stated: in levels mode a table with a
single overlapping observation (fewer than 2) still produces a result pair
(with an all-`NaN` correlation matrix), not the no-result signal. -/
theorem single_obs_counterexample :
    prepare_matrix_data (α := ℚ) id oneRow .levels .dropAny =
      some (oneRow, corrNaN) ∧
    oneRow.rows.length = 1 :=
  ⟨by decide, by decide⟩

/-! ## Claim C6: the missing-data cleaner -/

theorem zip_filter_snd {γ : Type} (ds : List Nat) (rs : List (List (Option γ)))
    (p : List (Option γ) → Bool) (h : ds.length = rs.length) :
    ((ds.zip rs).filter (fun q => p q.2)).map Prod.snd = rs.filter p := by
  induction ds generalizing rs with
  | nil =>
    cases rs with
    | nil => simp
    | cons r rs => simp at h
  | cons d ds ih =>
    cases rs with
    | nil => simp at h
    | cons r rs =>
      rw [List.zip_cons_cons, List.filter_cons, List.filter_cons]
      by_cases hp : p r
      · simp only [hp, if_pos]
        rw [List.map_cons, ih rs (by simpa using h)]
      · simp only [hp]
        rw [if_neg (by simp), if_neg (by simp), ih rs (by simpa using h)]

theorem dropnaAny_rows (df : DF α) (hwf : df.WF) :
    (dropnaAny df).rows = df.rows.filter (fun r => r.all Option.isSome) := by
  show ((df.dates.zip df.rows).filter _).map Prod.snd = _
  exact zip_filter_snd df.dates df.rows (fun r => r.all Option.isSome) hwf.1

theorem dropnaAny_dense (df : DF α) : (dropnaAny df).Dense := by
  intro r hr c hc
  simp only [dropnaAny, List.mem_map, List.mem_filter] at hr
  obtain ⟨⟨d, r'⟩, ⟨hmem, hall⟩, rfl⟩ := hr
  exact List.all_eq_true.mp hall c hc

/-- The update step of forward fill: keep a present cell, else keep the last
known value. -/
def fillStep (l c : Option α) : Option α :=
  match c with
  | some v => some v
  | none => l

/-- The last present value of a column prefix (the value forward fill puts
in the final cell of that prefix), `none` if no observation exists yet. -/
def lastObs (col : List (Option α)) : Option α := col.foldl fillStep none

theorem foldl_fillStep_none (l : List (Option α)) (a : Option α) :
    l.foldl fillStep a = none ↔ a = none ∧ ∀ c ∈ l, c = none := by
  induction l generalizing a with
  | nil => simp
  | cons c cs ih =>
    rw [List.foldl_cons, ih]
    cases c <;> simp [fillStep]

theorem ffillRows_cell {L : Nat} (rows : List (List (Option α)))
    (last : List (Option α)) (t j : Nat) (hlast : last.length = L)
    (hrect : ∀ r ∈ rows, r.length = L) (hj : j < L) (ht : t < rows.length) :
    ((ffillRows last rows).getD t []).getD j none =
      ((rows.take (t + 1)).map (fun r => r.getD j none)).foldl fillStep
        (last.getD j none) := by
  induction rows generalizing last t with
  | nil => simp at ht
  | cons r rs ih =>
    have hr : r.length = L := hrect r (by simp)
    have hr2len : (List.zipWith fillStep last r).length = L := by
      rw [List.length_zipWith, hlast, hr, min_self]
    cases t with
    | zero =>
      show (List.zipWith fillStep last r).getD j none = _
      rw [getD_zipWith' fillStep last r j none none none (by omega) (by omega)]
      simp
    | succ t =>
      show ((ffillRows (List.zipWith fillStep last r) rs).getD t []).getD j none = _
      rw [ih (List.zipWith fillStep last r) t hr2len
        (fun x hx => hrect x (by simp [hx])) (by simpa using ht)]
      rw [List.take_succ_cons, List.map_cons, List.foldl_cons,
        getD_zipWith' fillStep last r j none none none (by omega) (by omega)]

theorem getD_map_const_none {γ δ : Type} (l : List γ) (j : Nat) :
    (l.map (fun _ => (none : Option δ))).getD j none = none := by
  induction l generalizing j with
  | nil => rfl
  | cons x xs ih => cases j <;> simp [ih]

theorem ffillDF_cell (df : DF α) (hwf : df.WF) (t j : Nat)
    (ht : t < df.rows.length) (hj : j < df.cols.length) :
    (ffillDF df).cell t j =
      lastObs ((df.rows.take (t + 1)).map (fun r => r.getD j none)) := by
  show ((ffillRows (df.cols.map fun _ => none) df.rows).getD t []).getD j none = _
  rw [ffillRows_cell (L := df.cols.length) df.rows _ t j (by simp) hwf.2 hj ht,
    getD_map_const_none]
  rfl

theorem ffillDF_cell_none_iff (df : DF α) (hwf : df.WF) (t j : Nat)
    (ht : t < df.rows.length) (hj : j < df.cols.length) :
    ((ffillDF df).cell t j = none ↔ ∀ s, s ≤ t → df.cell s j = none) := by
  rw [ffillDF_cell df hwf t j ht hj]
  unfold lastObs
  rw [foldl_fillStep_none]
  simp only [true_and, List.forall_mem_map]
  constructor
  · intro h s hs
    have hs' : s < df.rows.length := by omega
    have hsl : s < (df.rows.take (t + 1)).length := by
      rw [List.length_take]
      omega
    have hmem : df.rows[s] ∈ df.rows.take (t + 1) := by
      rw [List.mem_iff_getElem]
      exact ⟨s, hsl, List.getElem_take _⟩
    have := h _ hmem
    unfold DF.cell
    rw [List.getD_eq_getElem _ _ hs']
    exact this
  · intro h r hr
    rw [List.mem_iff_getElem] at hr
    obtain ⟨s, hsl, rfl⟩ := hr
    have hsl' : s < df.rows.length := by
      rw [List.length_take] at hsl
      omega
    have hst : s ≤ t := by
      rw [List.length_take] at hsl
      omega
    have := h s hst
    unfold DF.cell at this
    rw [List.getD_eq_getElem _ _ hsl'] at this
    rw [List.getElem_take]
    exact this

/-- The C6 cleaner properties at `(df, m, t, j)`: drop-any-NA keeps exactly
the fully-present rows; the cleaned output is dense under either policy;
the forward-fill policy is forward fill followed by drop-any-NA; a
forward-filled cell holds the column's last known value at or before its
row; and a forward-filled cell is still missing precisely when the column
has no observation at or before that row (a leading gap). -/
def CleanerSpec (df : DF ℚ) (m : MMode) (t j : Nat) : Prop :=
  (dropnaAny df).rows = df.rows.filter (fun r => r.all Option.isSome) ∧
  DF.Dense (cleanDF df m) ∧
  cleanDF df .dropAny = dropnaAny df ∧
  cleanDF df .ffillDrop = dropnaAny (ffillDF df) ∧
  (ffillDF df).cell t j =
    lastObs ((df.rows.take (t + 1)).map (fun r => r.getD j none)) ∧
  ((ffillDF df).cell t j = none ↔ ∀ s, s ≤ t → df.cell s j = none)

/-- C6 (confirmed).  Drop-any-NA removes exactly the rows containing at
least one absent cell; forward-fill-then-drop propagates each column's last
known value forward and then drops the rows still containing absent cells,
which are exactly the rows before a column's first observation; the output
is fully dense (or empty). -/
theorem cleaner_spec (df : DF ℚ) (m : MMode) (t j : Nat) (hwf : df.WF)
    (ht : t < df.rows.length) (hj : j < df.cols.length) :
    CleanerSpec df m t j := by
  refine ⟨dropnaAny_rows df hwf, ?_, rfl, rfl,
    ffillDF_cell df hwf t j ht hj, ffillDF_cell_none_iff df hwf t j ht hj⟩
  cases m with
  | ffillDrop => exact dropnaAny_dense _
  | dropAny => exact dropnaAny_dense _

/-- A table with a leading gap in column A and an internal gap in column B. -/
def wMiss : DF ℚ :=
  ⟨[0, 1, 2], ["A", "B"], [[none, some 1], [some 2, none], [some 3, some 4]]⟩

/-- Witness for C6 at a concrete table with missing cells, `t = 1`, `j = 0`. -/
theorem cleaner_spec_witness :
    (wMiss.WF ∧ 1 < wMiss.rows.length ∧ 0 < wMiss.cols.length) ∧
      CleanerSpec wMiss .ffillDrop 1 0 :=
  ⟨⟨by decide, by decide, by decide⟩,
   cleaner_spec wMiss .ffillDrop 1 0 (by decide) (by decide) (by decide)⟩

/-! ## Claim C8: the proportional-prices example -/

/-- The spec's example prices: `A = [100, 110, 121]`, `B = [50, 55, 60.5]`. -/
def pricesProp : DF ℚ :=
  ⟨[0, 1, 2], ["A", "B"],
   [[some 100, some 50], [some 110, some 55], [some 121, some (121/2)]]⟩

/-- The percent-change ReturnTable of `pricesProp`: `0.10` everywhere. -/
def retProp : DF ℚ :=
  ⟨[1, 2], ["A", "B"], [[some (1/10), some (1/10)], [some (1/10), some (1/10)]]⟩

unseal Rat.sub Rat.add Rat.mul Rat.inv in
/-- C8 (corrected).  On the example prices, percent-change mode yields
returns `[0.10, 0.10]` for both tickers, but because the two return series
are then constant (zero variance), pandas' Pearson correlation between A
and B is `NaN` (`none`) — not `1.0` as the claim states.  See the
counterexample theorem for the refutation of the stated value. -/
theorem proportional_prices_example :
    prepare_matrix_data (α := ℚ) id pricesProp .pct .dropAny =
      some (retProp, corrNaN) ∧
    retProp.rows = [[some (1/10), some (1/10)], [some (1/10), some (1/10)]] :=
  ⟨by decide, by decide⟩

unseal Rat.sub Rat.add Rat.mul Rat.inv in
/-- C8 counterexample to the claim as stated: the (A,B) entry of the matrix
produced from the example prices is `none` (`NaN`); no value `1.0` exists. -/
theorem proportional_corr_counterexample :
    (prepare_matrix_data (α := ℚ) id pricesProp .pct .dropAny).map
      (fun pr => pr.2.entry 0 1) = some none := by
  decide

/-! ## Claim C5: the returns transformer -/

theorem getD_some_lt {γ : Type} {l : List (Option γ)} {j : Nat} {a : γ}
    (h : l.getD j none = some a) : j < l.length := by
  by_contra hj
  rw [List.getD_eq_getElem?_getD, List.getElem?_eq_none (by omega)] at h
  simp at h

/-- `dropna(how="all")` after a differencing step on a dense nonempty frame:
the all-`NaN` first row is dropped and every other row survives. -/
theorem dropnaAllRows_shift (g : Option α → Option α → Option α)
    (hg : ∀ a b, (g (some a) (some b)).isSome)
    (dates : List Nat) (cols : List String) (r0 : List (Option α))
    (rs : List (List (Option α)))
    (hlen : dates.length = (r0 :: rs).length)
    (hrect : ∀ r ∈ r0 :: rs, r.length = cols.length)
    (hd : ∀ r ∈ r0 :: rs, ∀ c ∈ r, c.isSome)
    (hc : cols ≠ []) :
    dropnaAllRows ⟨dates, cols,
        (r0.map fun _ => none) :: List.zipWith (List.zipWith g) (r0 :: rs) rs⟩ =
      ⟨dates.tail, cols, List.zipWith (List.zipWith g) (r0 :: rs) rs⟩ := by
  cases dates with
  | nil => simp at hlen
  | cons d ds =>
    have hcpos : 0 < cols.length := List.length_pos.mpr hc
    have hds : ds.length = rs.length := by simpa using hlen
    have hzlen : (List.zipWith (List.zipWith g) (r0 :: rs) rs).length = rs.length := by
      rw [List.length_zipWith]
      simp
    simp only [dropnaAllRows]
    rw [List.zip_cons_cons, List.filter_cons, if_neg (by simp)]
    have hall : ∀ q ∈ ds.zip (List.zipWith (List.zipWith g) (r0 :: rs) rs),
        ((fun p => p.2.any Option.isSome) q) = true := by
      rintro ⟨dd, z⟩ hq
      have hz := (List.of_mem_zip hq).2
      rw [List.mem_iff_getElem] at hz
      obtain ⟨i, hi, rfl⟩ := hz
      rw [hzlen] at hi
      have hi1 : i < (r0 :: rs).length := by
        simp only [List.length_cons]
        omega
      simp only
      rw [List.getElem_zipWith, List.any_eq_true]
      have hlen1 : (r0 :: rs)[i].length = cols.length := hrect _ (List.getElem_mem hi1)
      have hlen2 : rs[i].length = cols.length :=
        hrect _ (List.mem_cons_of_mem _ (List.getElem_mem hi))
      have hz0 : 0 < (List.zipWith g (r0 :: rs)[i] rs[i]).length := by
        rw [List.length_zipWith]
        omega
      refine ⟨(List.zipWith g (r0 :: rs)[i] rs[i])[0], List.getElem_mem hz0, ?_⟩
      rw [List.getElem_zipWith]
      have ha := hd _ (List.getElem_mem hi1) _
        (@List.getElem_mem _ ((r0 :: rs)[i]) 0 (by omega))
      have hb := hd _ (List.mem_cons_of_mem _ (List.getElem_mem hi)) _
        (@List.getElem_mem _ (rs[i]) 0 (by omega))
      obtain ⟨a, ha2⟩ := Option.isSome_iff_exists.mp ha
      obtain ⟨b, hb2⟩ := Option.isSome_iff_exists.mp hb
      rw [ha2, hb2]
      exact hg a b
    rw [List.filter_eq_self.mpr hall,
      List.map_fst_zip _ _ (by omega), List.map_snd_zip _ _ (by omega)]
    rfl

/-- Lines 130-131 on a dense nonempty frame: the percent-change branch keeps
the tail of the date index and pairs consecutive rows. -/
theorem transform_pct_eq (lg : α → α) (df : DF α) (hwf : df.WF) (hd : df.Dense)
    (hne : df.rows ≠ []) (hc : df.cols ≠ []) :
    transformDF lg df .pct =
      ⟨df.dates.tail, df.cols,
       List.zipWith (List.zipWith pctCell) df.rows df.rows.tail⟩ := by
  obtain ⟨dates, cols, rows⟩ := df
  cases rows with
  | nil => simp at hne
  | cons r0 rs =>
    show dropnaAllRows ⟨dates, cols,
        (r0.map fun _ => none) :: List.zipWith (List.zipWith pctCell) (r0 :: rs) rs⟩ = _
    exact dropnaAllRows_shift pctCell (fun a b => rfl) dates cols r0 rs hwf.1 hwf.2 hd hc

/-- Lines 132-133 on a dense nonempty frame: the log-return branch maps the
cells through the logarithm, then pairs consecutive rows. -/
theorem transform_logr_eq (lg : α → α) (df : DF α) (hwf : df.WF) (hd : df.Dense)
    (hne : df.rows ≠ []) (hc : df.cols ≠ []) :
    transformDF lg df .logr =
      ⟨df.dates.tail, df.cols,
       List.zipWith (List.zipWith diffCell)
         (df.rows.map (fun r => r.map (Option.map lg)))
         ((df.rows.map (fun r => r.map (Option.map lg))).tail)⟩ := by
  obtain ⟨dates, cols, rows⟩ := df
  cases rows with
  | nil => simp at hne
  | cons r0 rs =>
    show dropnaAllRows ⟨dates, cols,
        ((r0.map (Option.map lg)).map fun _ => none) ::
          List.zipWith (List.zipWith diffCell)
            (r0.map (Option.map lg) :: rs.map (fun r => r.map (Option.map lg)))
            (rs.map (fun r => r.map (Option.map lg)))⟩ = _
    refine dropnaAllRows_shift diffCell (fun a b => rfl) dates cols
      (r0.map (Option.map lg)) (rs.map (fun r => r.map (Option.map lg)))
      (by simpa using hwf.1) ?_ ?_ hc
    · intro r hr
      have : r ∈ (r0 :: rs).map (fun r => r.map (Option.map lg)) := hr
      rw [List.mem_map] at this
      obtain ⟨r', hr', rfl⟩ := this
      rw [List.length_map]
      exact hwf.2 r' hr'
    · intro r hr c hcm
      have : r ∈ (r0 :: rs).map (fun r => r.map (Option.map lg)) := hr
      rw [List.mem_map] at this
      obtain ⟨r', hr', rfl⟩ := this
      rw [List.mem_map] at hcm
      obtain ⟨c', hc', rfl⟩ := hcm
      have := hd r' hr' c' hc'
      obtain ⟨v, hv⟩ := Option.isSome_iff_exists.mp this
      rw [hv]
      rfl

/-- The cell of a consecutive-row `zipWith` table in terms of the cells of
the original rows. -/
theorem zipWith_rows_cell {γ : Type} (g : Option γ → Option γ → Option γ)
    (rows : List (List (Option γ))) (t j : Nat) (a b : γ)
    (ht : t + 1 < rows.length)
    (hx : (rows.getD t []).getD j none = some a)
    (hy : (rows.getD (t + 1) []).getD j none = some b) :
    ((List.zipWith (List.zipWith g) rows rows.tail).getD t []).getD j none =
      g (some a) (some b) := by
  have ht0 : t < rows.length := by omega
  have htt : t < rows.tail.length := by
    rw [List.length_tail]
    omega
  have hzl : t < (List.zipWith (List.zipWith g) rows rows.tail).length := by
    rw [List.length_zipWith, List.length_tail]
    omega
  rw [List.getD_eq_getElem _ _ hzl, List.getElem_zipWith]
  rw [List.getD_eq_getElem _ _ ht0] at hx
  rw [List.getD_eq_getElem _ _ (show t + 1 < rows.length by omega)] at hy
  have htl : rows.tail[t] = rows[t + 1] := List.getElem_tail _ _ _
  rw [htl, getD_zipWith' g _ _ j none none none (getD_some_lt hx) (getD_some_lt hy),
    hx, hy]

theorem getD_map_optmap {γ : Type} (f : γ → γ) (r : List (Option γ)) (j : Nat) :
    (r.map (Option.map f)).getD j none = Option.map f (r.getD j none) := by
  induction r generalizing j with
  | nil => rfl
  | cons c cs ih =>
    cases j with
    | zero => rfl
    | succ n =>
      rw [List.map_cons, List.getD_cons_succ, List.getD_cons_succ]
      exact ih n

theorem getD_map_rows {γ δ : Type} (F : List γ → List δ) (hF : F [] = [])
    (rows : List (List γ)) (t : Nat) :
    (rows.map F).getD t [] = F (rows.getD t []) := by
  induction rows generalizing t with
  | nil => simp [hF]
  | cons r rs ih =>
    cases t with
    | zero => rfl
    | succ n =>
      rw [List.map_cons, List.getD_cons_succ, List.getD_cons_succ]
      exact ih n

/-- Membership in the kept-column set of `dropna(axis=1, how="all")`: a
column index is kept iff it is in range and some row has a present cell
there. -/
theorem keepIdx_mem (df : DF α) (j : Nat) :
    j ∈ keepIdx df ↔
      j < df.cols.length ∧ ∃ r ∈ df.rows, (r.getD j none).isSome := by
  unfold keepIdx
  simp only [List.mem_filter, List.mem_range, List.any_eq_true]

/-- C5 (confirmed).  On every dense nonempty PriceTable: percent-change
produces `r[t] = p[t]/p[t-1] - 1` and log-return produces
`r[t] = ln p[t] - ln p[t-1]`, each with exactly one fewer row than the
input (the first row is discarded) and the tail of the date index; levels
mode returns the table unchanged; and the subsequent column drop keeps
exactly the columns with at least one defined entry. -/
theorem returns_transform_spec :
    (∀ (lg : ℚ → ℚ) (df : DF ℚ), df.WF → df.Dense → df.rows ≠ [] →
      df.cols ≠ [] →
      (transformDF lg df .pct).dates = df.dates.tail ∧
      (transformDF lg df .pct).rows.length = df.rows.length - 1 ∧
      (∀ t j a b, df.cell t j = some a → df.cell (t + 1) j = some b →
        t + 1 < df.rows.length →
        (transformDF lg df .pct).cell t j = some (b / a - 1))) ∧
    (∀ (df : DF ℝ), df.WF → df.Dense → df.rows ≠ [] → df.cols ≠ [] →
      (transformDF Real.log df .logr).dates = df.dates.tail ∧
      (transformDF Real.log df .logr).rows.length = df.rows.length - 1 ∧
      (∀ t j a b, df.cell t j = some a → df.cell (t + 1) j = some b →
        t + 1 < df.rows.length →
        (transformDF Real.log df .logr).cell t j =
          some (Real.log b - Real.log a))) ∧
    (∀ (lg : ℚ → ℚ) (df : DF ℚ), transformDF lg df .levels = df) ∧
    (∀ (df : DF ℚ) (j : Nat),
      j ∈ keepIdx df ↔
        j < df.cols.length ∧ ∃ r ∈ df.rows, (r.getD j none).isSome) := by
  refine ⟨?_, ?_, fun lg df => rfl, fun df j => keepIdx_mem df j⟩
  · intro lg df hwf hd hne hc
    have hpos := List.length_pos.mpr hne
    have he := transform_pct_eq lg df hwf hd hne hc
    refine ⟨by rw [he], ?_, ?_⟩
    · rw [he]
      show (List.zipWith (List.zipWith pctCell) df.rows df.rows.tail).length = _
      rw [List.length_zipWith, List.length_tail]
      omega
    · intro t j a b hx hy ht
      rw [he]
      show ((List.zipWith (List.zipWith pctCell) df.rows df.rows.tail).getD t
        []).getD j none = _
      rw [zipWith_rows_cell pctCell df.rows t j a b ht hx hy]
      rfl
  · intro df hwf hd hne hc
    have hpos := List.length_pos.mpr hne
    have he := transform_logr_eq Real.log df hwf hd hne hc
    refine ⟨by rw [he], ?_, ?_⟩
    · rw [he]
      show (List.zipWith (List.zipWith diffCell)
        (df.rows.map (fun r => r.map (Option.map Real.log)))
        ((df.rows.map (fun r => r.map (Option.map Real.log))).tail)).length = _
      rw [List.length_zipWith, List.length_tail, List.length_map]
      omega
    · intro t j a b hx hy ht
      have hx0 : (df.rows.getD t []).getD j none = some a := hx
      have hy0 : (df.rows.getD (t + 1) []).getD j none = some b := hy
      have hx1 : ((df.rows.map (fun r => r.map (Option.map Real.log))).getD t
          []).getD j none = some (Real.log a) := by
        rw [getD_map_rows _ rfl, getD_map_optmap, hx0]
        rfl
      have hy1 : ((df.rows.map (fun r => r.map (Option.map Real.log))).getD
          (t + 1) []).getD j none = some (Real.log b) := by
        rw [getD_map_rows _ rfl, getD_map_optmap, hy0]
        rfl
      rw [he]
      show ((List.zipWith (List.zipWith diffCell)
        (df.rows.map (fun r => r.map (Option.map Real.log)))
        ((df.rows.map (fun r => r.map (Option.map Real.log))).tail)).getD t
          []).getD j none = _
      rw [zipWith_rows_cell diffCell _ t j (Real.log a) (Real.log b)
        (by rw [List.length_map]; omega) hx1 hy1]
      rfl

/-- A dense 2-row real-valued PriceTable for the log-mode witness. -/
def wLog : DF ℝ := ⟨[0, 1], ["A", "B"], [[some 1, some 1], [some 1, some 1]]⟩

/-- Witness for C5 at concrete tables (percent-change on the example prices,
log mode on a real-valued table, levels passthrough, column keeping). -/
theorem returns_transform_spec_witness :
    (pricesProp.WF ∧ pricesProp.Dense ∧ pricesProp.rows ≠ [] ∧
      pricesProp.cols ≠ [] ∧ pricesProp.cell 0 0 = some 100 ∧
      pricesProp.cell 1 0 = some 110 ∧ 1 < pricesProp.rows.length) ∧
    (transformDF id pricesProp .pct).cell 0 0 = some (110 / 100 - 1) ∧
    (transformDF Real.log wLog .logr).cell 0 0 =
      some (Real.log 1 - Real.log 1) ∧
    transformDF id pricesProp .levels = pricesProp ∧
    (0 ∈ keepIdx pricesProp ↔ 0 < pricesProp.cols.length ∧
      ∃ r ∈ pricesProp.rows, (r.getD 0 none).isSome) :=
  ⟨⟨by decide, by decide, by decide, by decide, by decide, by decide, by decide⟩,
   (returns_transform_spec.1 id pricesProp (by decide) (by decide) (by decide)
      (by decide)).2.2 0 0 100 110 (by decide) (by decide) (by decide),
   (returns_transform_spec.2.1 wLog (by decide) (by decide) (by simp [wLog])
      (by simp [wLog])).2.2 0 0 1 1 rfl rfl (by simp [wLog]),
   returns_transform_spec.2.2.1 id pricesProp,
   returns_transform_spec.2.2.2 pricesProp 0⟩

/-! ## Claim C10: `fetch_prices` on an empty ticker list -/

/-- C10 (confirmed).  For every start, end, and field, `fetch_prices` on an
empty ticker list returns the empty PriceTable, and the result does not
depend on the download collaborator — the external fetch is never invoked. -/
theorem fetch_prices_empty_tickers {β : Type}
    (download download2 : List String → Int → Int → β)
    (normalize : β → List String → String → DF ℚ)
    (start stop : Int) (field : String) :
    fetch_prices download normalize [] start stop field = DF.emptyDF ∧
    fetch_prices download normalize [] start stop field =
      fetch_prices download2 normalize [] start stop field :=
  ⟨rfl, rfl⟩

end StockCorr
